import Mathlib

/-!
# KaizenTerm — terminal process orchestration core, shallow embedding

This file embeds the terminal-orchestration core of the KaizenTerm
repository in Lean 4 and proves properties of it.

* `src/electron/main.cjs` — Electron main process: shell registry, ring
  buffers (`appendToBuffer`), PID lock file (`writePidLock`,
  `cleanupOrphanedProcesses`), and the `pty:spawn` / `pty:kill` IPC
  handlers.
* `src/src/modules/terminal-manager.ts` — renderer: the stream
  classifier regexes (`ANSI_ERROR_RE`, `ANSI_STRIP_RE`,
  `SHELL_PROMPT_RE`), block segmentation (`trackBlocks`), session
  registry (`removeTerminal`), and natural-language keystroke
  interception (`writeToTerminal` / `writeRaw`).

Strings are modelled as `List Char` (one entry per Unicode scalar).
JavaScript regular-expression matching is modelled by explicit scanners
that follow the leftmost-match, alternative-in-order, greedy semantics
of `String.prototype.replace` / `RegExp.prototype.test` for the exact
patterns appearing in the source.  Recursions on suffixes that are not
immediate tails are driven by a fuel argument initialised to the input
length (each step consumes at least one character, so the fuel never
runs out); this keeps every definition computable by the kernel.
-/

namespace KaizenTerm

/-! ## Character classes

`jsWhitespace` is the set matched by JavaScript's `\s` and removed by
`String.prototype.trim`: ASCII whitespace, NBSP, BOM, and the Unicode
space separators. -/

def jsWhitespace (c : Char) : Bool :=
  c = ' ' || c = '\t' || c = '\n' || c = '\r' ||
  c.toNat = 0x0b || c.toNat = 0x0c || c.toNat = 0xa0 || c.toNat = 0xfeff ||
  c.toNat = 0x1680 || (0x2000 ≤ c.toNat && c.toNat ≤ 0x200a) ||
  c.toNat = 0x2028 || c.toNat = 0x2029 || c.toNat = 0x202f ||
  c.toNat = 0x205f || c.toNat = 0x3000

/-- JavaScript `\w` (word character): `[A-Za-z0-9_]`. -/
def isWordChar (c : Char) : Bool :=
  c.isAlphanum || c = '_'

/-- `String.prototype.trim`: drop leading and trailing whitespace. -/
def jsTrim (l : List Char) : List Char :=
  ((l.dropWhile jsWhitespace).reverse.dropWhile jsWhitespace).reverse

/-- `s.split('\n')` on a JavaScript string: split at every newline,
keeping empty pieces; the empty string splits to `[""]`. -/
def splitOnNl : List Char → List (List Char)
  | [] => [[]]
  | c :: rest =>
    let r := splitOnNl rest
    if c = '\n' then [] :: r
    else
      match r with
      | [] => [[c]]
      | l :: ls => (c :: l) :: ls

/-! ## `main.cjs`: ANSI stripping for the ring buffer

`appendToBuffer` cleans each chunk with
`rawData.replace(/\x1b\[[0-9;]*[a-zA-Z]/g, '').replace(/\r/g, '')`.
`csiParams` consumes the greedy `[0-9;]*` run and then requires an
ASCII letter, returning the remainder of the input on success. -/

def csiParams : List Char → Option (List Char)
  | [] => none
  | c :: rest =>
    if c.isDigit || c = ';' then csiParams rest
    else if c.isAlpha then some rest else none

/-- Try to match `/\x1b\[[0-9;]*[a-zA-Z]/` at the head of the input. -/
def matchCsi : List Char → Option (List Char)
  | '\x1b' :: '[' :: rest => csiParams rest
  | _ => none

/-- Global replace of the CSI regex by the empty string: scan left to
right; on a match, continue after it, otherwise keep the character.
Fuel starts at the input length; every recursive call strictly shortens
the input, so the `0` case is never reached from `stripAnsi`. -/
def stripAnsiGo : Nat → List Char → List Char
  | 0, s => s
  | _ + 1, [] => []
  | fuel + 1, c :: rest =>
    match matchCsi (c :: rest) with
    | some r => stripAnsiGo fuel r
    | none => c :: stripAnsiGo fuel rest

def stripAnsi (s : List Char) : List Char :=
  stripAnsiGo s.length s

/-! ## `main.cjs`: terminal output ring buffer (`appendToBuffer`) -/

def RING_BUFFER_MAX_LINES : Nat := 200

/-- The `while (buf.length > RING_BUFFER_MAX_LINES) buf.shift();` loop:
drop the oldest line until the bound holds. -/
def shiftWhileGo {α : Type} : Nat → List α → List α
  | 0, buf => buf
  | fuel + 1, buf =>
    if RING_BUFFER_MAX_LINES < buf.length then shiftWhileGo fuel buf.tail
    else buf

def shiftWhile {α : Type} (buf : List α) : List α :=
  shiftWhileGo buf.length buf

/-- `appendToBuffer(id, rawData)` from `src/electron/main.cjs` lines
58–69, for one session's buffer: strip ANSI CSI sequences, remove
carriage returns, split on newlines, push every line whose trim is
truthy (non-empty), then evict oldest lines past the capacity. -/
def appendToBuffer (buf : List (List Char)) (rawData : List Char) : List (List Char) :=
  let clean := (stripAnsi rawData).filter (fun c => c ≠ '\r')
  let lines := splitOnNl clean
  let buf2 := lines.foldl (fun b line => if (jsTrim line).isEmpty then b else b ++ [line]) buf
  shiftWhile buf2

/-- The line transformation the capture contract describes: strip ANSI,
remove `\r`, split on `\n`, discard lines blank after trimming. -/
def cleanedLines (rawData : List Char) : List (List Char) :=
  (splitOnNl ((stripAnsi rawData).filter (fun c => c ≠ '\r'))).filter
    (fun line => !(jsTrim line).isEmpty)

/-! ## `main.cjs`: shell registry and PID lock

The `shells` JavaScript `Map` is modelled as an association list in
insertion order with (by construction) unique keys: `Map.set` updates
an existing key in place, `Map.delete` removes it. -/

def jsMapGet (m : List (String × Nat)) (k : String) : Option Nat :=
  (m.find? (fun p => p.1 == k)).map Prod.snd

def jsMapSet (m : List (String × Nat)) (k : String) (v : Nat) : List (String × Nat) :=
  if m.any (fun p => p.1 == k) then
    m.map (fun p => if p.1 == k then (k, v) else p)
  else m ++ [(k, v)]

def jsMapDelete (m : List (String × Nat)) (k : String) : List (String × Nat) :=
  m.filter (fun p => p.1 != k)

/-- One entry of the persisted PID lock file `pids.json`. -/
structure PidEntry where
  sessionId : String
  pid : Nat
  timestamp : Nat
deriving DecidableEq

/-- `writePidLock()`: snapshot the live shells map into the lock file,
stamping every entry with the current time. -/
def writePidLock (shells : List (String × Nat)) (now : Nat) : List PidEntry :=
  shells.map (fun p => ⟨p.1, p.2, now⟩)

/-- Electron main-process state touched by the `pty:*` handlers:
the shells registry, the persisted PID lock file (`none` when the file
does not exist), the append-only session log, and the pids that have
received `term.kill()`. -/
structure MainState where
  shells : List (String × Nat)
  pidsFile : Option (List PidEntry)
  sessionLog : List String
  killedPids : List Nat
deriving DecidableEq

def initMainState : MainState := ⟨[], none, [], []⟩

/-- The reply of the `pty:spawn` handler: `{pid}` or `{error}`. -/
inductive SpawnReply where
  | pid (p : Nat)
  | err (message : String)
deriving DecidableEq

/-- `ipcMain.handle('pty:spawn')` (`main.cjs` lines 288–339).  Whether
`pty.spawn` succeeds (returning an OS pid) or throws is decided by the
environment, so the outcome is a parameter.  On success the handle is
registered (replacing any previous entry for the id), the PID lock is
rewritten, and a `SPAWN` line is logged; on failure only a
`SPAWN_FAIL` line is logged and `{error}` is returned. -/
def ptySpawn (st : MainState) (id : String) (spawnResult : Except String Nat)
    (now : Nat) : MainState × SpawnReply :=
  match spawnResult with
  | Except.ok pid =>
    let shells := jsMapSet st.shells id pid
    ({ shells := shells,
       pidsFile := some (writePidLock shells now),
       sessionLog := st.sessionLog ++ ["SPAWN " ++ id],
       killedPids := st.killedPids }, SpawnReply.pid pid)
  | Except.error msg =>
    ({ st with sessionLog := st.sessionLog ++ ["SPAWN_FAIL " ++ id ++ " ERROR=" ++ msg] },
     SpawnReply.err msg)

/-- `ipcMain.on('pty:kill')` (`main.cjs` lines 353–361): if the shells
map has an entry, kill the process, delete the entry, rewrite the PID
lock and log `KILL`; otherwise do nothing at all. -/
def ptyKill (st : MainState) (id : String) (now : Nat) : MainState :=
  match jsMapGet st.shells id with
  | none => st
  | some pid =>
    let shells := jsMapDelete st.shells id
    { shells := shells,
      pidsFile := some (writePidLock shells now),
      sessionLog := st.sessionLog ++ ["KILL " ++ id],
      killedPids := st.killedPids ++ [pid] }

/-- `term.onExit` callback registered in `pty:spawn`: delete the entry,
rewrite the PID lock, log `EXIT`. -/
def ptyExit (st : MainState) (id : String) (now : Nat) : MainState :=
  let shells := jsMapDelete st.shells id
  { shells := shells,
    pidsFile := some (writePidLock shells now),
    sessionLog := st.sessionLog ++ ["EXIT " ++ id],
    killedPids := st.killedPids }

/-- The events that mutate the shells registry. -/
inductive MainOp where
  | spawn (id : String) (result : Except String Nat) (now : Nat)
  | kill (id : String) (now : Nat)
  | exited (id : String) (now : Nat)

def mainStep (st : MainState) : MainOp → MainState
  | MainOp.spawn id r now => (ptySpawn st id r now).1
  | MainOp.kill id now => ptyKill st id now
  | MainOp.exited id now => ptyExit st id now

/-! ## `main.cjs`: orphan cleanup (`cleanupOrphanedProcesses`) -/

inductive Sig where
  | sigterm
  | sigkill
deriving DecidableEq

/-- `cleanupOrphanedProcesses()` (`main.cjs` lines 175–197).  If the
lock file does not exist, return.  Otherwise, for every entry probe the
pid with signal 0: a live pid gets `SIGTERM` and a delayed `SIGKILL`,
a dead pid makes the probe throw, which the inner `catch` swallows.
After the loop the lock file is unlinked.  Liveness is an environment
oracle; the returned pair is the new lock-file state and the
termination signals sent. -/
def cleanupOrphanedProcesses (pidsFile : Option (List PidEntry))
    (alive : Nat → Bool) : Option (List PidEntry) × List (Nat × Sig) :=
  match pidsFile with
  | none => (none, [])
  | some entries =>
    let signals := entries.foldl
      (fun acc e =>
        if alive e.pid then acc ++ [(e.pid, Sig.sigterm), (e.pid, Sig.sigkill)]
        else acc) []
    (none, signals)

/-! ## `terminal-manager.ts`: the stream-classifier regexes

`ANSI_STRIP_RE` is
`/\x1b\[\?]?[0-9;]*[a-zA-Z]|\x1b\](?:[^\x07\x1b]*(?:\x07|\x1b\\))|\x1b\][^\x07]*$|\x1b\(B/g`.
Note that in its first alternative `\[` is a literal `[`, `\?` a
literal `?` and the lone `]` a literal `]` under the `?` quantifier —
so that alternative requires a literal `?` after the bracket (it
matches private-mode sequences such as `ESC[?25h` but not plain colour
codes such as `ESC[31m`). -/

/-- First alternative of `ANSI_STRIP_RE`: `ESC [ ? ]? [0-9;]* letter`.
If the optional `]` was consumed but the rest fails, backtracking to
the empty option also fails (`]` is neither in `[0-9;]` nor a letter),
so trying the `]` branch first is exact. -/
def stripAlt1 : List Char → Option (List Char)
  | '\x1b' :: '[' :: '?' :: ']' :: rest => csiParams rest
  | '\x1b' :: '[' :: '?' :: rest => csiParams rest
  | _ => none

/-- Body of the second alternative after `ESC ]`:
`[^\x07\x1b]*(?:\x07|\x1b\\)`.  The greedy run necessarily stops at the
first BEL or ESC, where the terminator must follow. -/
def oscBody : List Char → Option (List Char)
  | [] => none
  | c :: rest =>
    if c = '\x07' then some rest
    else if c = '\x1b' then
      match rest with
      | '\\' :: r => some r
      | _ => none
    else oscBody rest

/-- Try to match `ANSI_STRIP_RE` at the head of the input, alternatives
in written order; on success return the rest after the match. -/
def stripMatch (l : List Char) : Option (List Char) :=
  match stripAlt1 l with
  | some r => some r
  | none =>
    match l with
    | '\x1b' :: ']' :: rest =>
      (match oscBody rest with
       | some r => some r
       | none =>
         -- third alternative `\x1b\][^\x07]*$`: consumes to the end
         -- of the input exactly when no BEL occurs in the rest
         if rest.all (fun c => c ≠ '\x07') then some [] else none)
    | '\x1b' :: '(' :: 'B' :: rest => some rest
    | _ => none

/-- Global replace of `ANSI_STRIP_RE` by the empty string (fuel-driven
left-to-right scan; every match consumes at least two characters). -/
def ansiStripGo : Nat → List Char → List Char
  | 0, s => s
  | _ + 1, [] => []
  | fuel + 1, c :: rest =>
    match stripMatch (c :: rest) with
    | some r => ansiStripGo fuel r
    | none => c :: ansiStripGo fuel rest

def ansiStrip (s : List Char) : List Char :=
  ansiStripGo s.length s

/-- `SHELL_PROMPT_RE = /[$❯%➜#]\s*$/` holds of a string iff after the
trailing whitespace run its last character is a prompt terminator. -/
def shellPromptTest (l : List Char) : Bool :=
  match l.reverse.dropWhile jsWhitespace with
  | [] => false
  | c :: _ => c = '$' || c = '❯' || c = '%' || c = '➜' || c = '#'

/-- The three colour codes of `ANSI_ERROR_RE`'s first alternative
`\x1b\[(?:31|91|1;31)m`. -/
def redCodes : List (List Char) :=
  ["\x1b[31m".data, "\x1b[91m".data, "\x1b[1;31m".data]

/-- The keyword set of `ANSI_ERROR_RE`'s second alternative. -/
def errKeywords : List (List Char) :=
  ["error".data, "Error".data, "ERROR".data, "FAILED".data,
   "failed".data, "exception".data, "Exception".data]

/-- A `\b` word boundary against an adjacent character (`none` = edge
of the string); the other side is always a keyword letter. -/
def boundaryOk : Option Char → Bool
  | none => true
  | some c => !isWordChar c

/-- Does `\bkw\b` match at the head of `l` when `prev` is the
character just before `l`? -/
def kwMatchAt (prev : Option Char) (kw l : List Char) : Bool :=
  kw.isPrefixOf l && boundaryOk prev && boundaryOk (l.drop kw.length).head?

/-- Scan for `ANSI_ERROR_RE` at every position, tracking the previous
character for the leading word boundary. -/
def ansiErrorGo (prev : Option Char) : List Char → Bool
  | [] => false
  | c :: rest =>
    redCodes.any (fun code => code.isPrefixOf (c :: rest)) ||
    errKeywords.any (fun kw => kwMatchAt prev kw (c :: rest)) ||
    ansiErrorGo (some c) rest

/-- `ANSI_ERROR_RE.test(s)`: red / bright-red colour code anywhere, or
an error keyword on word boundaries. -/
def ansiErrorTest (l : List Char) : Bool :=
  ansiErrorGo none l

/-! ## `terminal-manager.ts`: block segmentation (`trackBlocks`) -/

/-- The `CommandBlock` interface (`terminal-manager.ts` lines 45–50). -/
structure CommandBlock where
  command : List Char
  output : List (List Char)
  timestamp : Nat
  hasError : Bool
deriving DecidableEq

/-- The per-instance block-tracking fields of `TerminalInstance`:
`blocks`, `currentBlock`, `lineBuffer`. -/
structure BlockState where
  blocks : List CommandBlock
  currentBlock : Option CommandBlock
  lineBuffer : List Char
deriving DecidableEq

/-- Initial values at terminal creation (`terminal-manager.ts` lines
354–356): `blocks: []`, `currentBlock: null`, `lineBuffer: ''`. -/
def initBlockState : BlockState := ⟨[], none, []⟩

/-- Chunk cleaning in `trackBlocks`:
`data.replace(ANSI_STRIP_RE, '').replace(/\r/g, '')`. -/
def trackClean (data : List Char) : List Char :=
  (ansiStrip data).filter (fun c => c ≠ '\r')

/-- Commit step at a prompt boundary: push the open block if it is
non-empty (`command` truthy or `output` non-empty), then evict the
oldest block past 50. -/
def commitBlocks (blocks : List CommandBlock) : Option CommandBlock → List CommandBlock
  | none => blocks
  | some cb =>
    if cb.command ≠ [] ∨ cb.output ≠ [] then
      if 50 < (blocks ++ [cb]).length then (blocks ++ [cb]).tail else blocks ++ [cb]
    else blocks

/-- `trackBlocks(inst, data)` (`terminal-manager.ts` lines 948–992).
`now` stands for `Date.now()` at the call.  The cleaned chunk is
appended to the line buffer; if the trimmed last line matches
`SHELL_PROMPT_RE` and the buffer is longer than 10 characters, the open
block is committed (when non-empty) and a fresh one opened; otherwise
the cleaned chunk's non-blank lines accumulate on the open block, the
first of them becoming `command` when it is still empty, and
`ANSI_ERROR_RE` on the raw data sets `hasError`. -/
def trackBlocks (st : BlockState) (data : List Char) (now : Nat) : BlockState :=
  let clean := trackClean data
  let lineBuffer := st.lineBuffer ++ clean
  let lastLine := jsTrim ((splitOnNl lineBuffer).getLastD [])
  if shellPromptTest lastLine ∧ 10 < lineBuffer.length then
    { blocks := commitBlocks st.blocks st.currentBlock,
      currentBlock := some ⟨[], [], now, false⟩,
      lineBuffer := [] }
  else
    match st.currentBlock with
    | some cb =>
      let outputLines := (splitOnNl clean).filter (fun l => !(jsTrim l).isEmpty)
      let cb1 :=
        if cb.command = [] ∧ outputLines ≠ [] then
          { cb with command := jsTrim (outputLines.headD []),
                    output := cb.output ++ outputLines.tail }
        else { cb with output := cb.output ++ outputLines }
      let cb2 := if ansiErrorTest data then { cb1 with hasError := true } else cb1
      { blocks := st.blocks, currentBlock := some cb2, lineBuffer := lineBuffer }
    | none => { st with lineBuffer := lineBuffer }

/-! ## `terminal-manager.ts`: session registry (`removeTerminal`) -/

/-- Registry state for activation: the keys of the `terminals` map in
insertion order (a JS `Map` preserves it), and `activeId`. -/
structure ManagerState where
  terminals : List String
  activeId : Option String
deriving DecidableEq

/-- `removeTerminal(id)` (`terminal-manager.ts` lines 555–576),
restricted to the registry and activation state: missing ids are a
no-op; otherwise the entry is deleted and, if it was active and some
session remains, `setActive(remaining[0])` re-targets activation.  When
no session remains `activeId` is left as it was. -/
def removeTerminal (st : ManagerState) (id : String) : ManagerState :=
  if st.terminals.contains id then
    let terminals := st.terminals.filter (fun t => t ≠ id)
    if st.activeId = some id then
      match terminals with
      | [] => ⟨terminals, st.activeId⟩
      | t :: _ => ⟨terminals, some t⟩
    else ⟨terminals, st.activeId⟩
  else st

/-! ## `terminal-manager.ts`: natural-language keystroke interception -/

/-- The `nlActiveAgentId` field guarding `writeToTerminal`. -/
structure NLState where
  nlActiveAgentId : Option String
deriving DecidableEq

/-- `writeToTerminal(id, data)` (`terminal-manager.ts` lines 855–873):
returns the new state and the list of writes forwarded to the bridge.
While the overlay is active for `id` nothing is forwarded; the single
character `#` opens the overlay (`showNLOverlay` first sets
`nlActiveAgentId = id`) and is not forwarded; anything else goes to the
shell. -/
def writeToTerminal (st : NLState) (id : String) (data : List Char) :
    NLState × List (String × List Char) :=
  if st.nlActiveAgentId = some id then (st, [])
  else if data = "#".data then (⟨some id⟩, [])
  else (st, [(id, data)])

/-- `writeRaw(id, data)`: bypasses the interception entirely. -/
def writeRaw (st : NLState) (id : String) (data : List Char) :
    NLState × List (String × List Char) :=
  (st, [(id, data)])

/-! ## Helper lemmas: the eviction loop of the ring buffer -/

theorem shiftWhileGo_length {α : Type} (f : Nat) (buf : List α)
    (h : buf.length ≤ RING_BUFFER_MAX_LINES + f) :
    (shiftWhileGo f buf).length ≤ RING_BUFFER_MAX_LINES := by
  induction f generalizing buf with
  | zero => simpa [shiftWhileGo] using h
  | succ f ih =>
    rw [shiftWhileGo]
    split
    · exact ih buf.tail (by simp [List.length_tail]; omega)
    · omega

theorem shiftWhile_length {α : Type} (buf : List α) :
    (shiftWhile buf).length ≤ RING_BUFFER_MAX_LINES :=
  shiftWhileGo_length buf.length buf (by omega)

theorem shiftWhileGo_suffix {α : Type} (f : Nat) (buf : List α) :
    (shiftWhileGo f buf).IsSuffix buf := by
  induction f generalizing buf with
  | zero => exact List.suffix_refl buf
  | succ f ih =>
    rw [shiftWhileGo]
    split
    · exact (ih buf.tail).trans (List.tail_suffix buf)
    · exact List.suffix_refl buf

theorem shiftWhile_suffix {α : Type} (buf : List α) :
    (shiftWhile buf).IsSuffix buf :=
  shiftWhileGo_suffix buf.length buf

theorem shiftWhileGo_eq_of_le {α : Type} (f : Nat) (buf : List α)
    (h : buf.length ≤ RING_BUFFER_MAX_LINES) :
    shiftWhileGo f buf = buf := by
  cases f with
  | zero => rfl
  | succ f => rw [shiftWhileGo, if_neg]; omega

theorem shiftWhile_eq_of_le {α : Type} (buf : List α)
    (h : buf.length ≤ RING_BUFFER_MAX_LINES) :
    shiftWhile buf = buf :=
  shiftWhileGo_eq_of_le buf.length buf h

/-- The `for`-loop of `appendToBuffer` (push each line whose trim is
truthy) appends exactly the non-blank lines, in order. -/
theorem foldl_push_eq_filter (lines : List (List Char)) (buf : List (List Char)) :
    lines.foldl (fun b line => if (jsTrim line).isEmpty then b else b ++ [line]) buf
      = buf ++ lines.filter (fun line => !(jsTrim line).isEmpty) := by
  induction lines generalizing buf with
  | nil => simp
  | cons l ls ih =>
    rw [List.foldl_cons, List.filter_cons]
    cases h : (jsTrim l).isEmpty with
    | true => rw [if_pos rfl, ih buf]; simp
    | false => rw [if_neg Bool.false_ne_true, ih (buf ++ [l])]; simp

/-- `appendToBuffer` in closed form: append the cleaned lines, then run
the eviction loop. -/
theorem appendToBuffer_eq (buf : List (List Char)) (rawData : List Char) :
    appendToBuffer buf rawData = shiftWhile (buf ++ cleanedLines rawData) := by
  simp only [appendToBuffer, cleanedLines]
  rw [foldl_push_eq_filter]

theorem appendToBuffer_length (buf : List (List Char)) (rawData : List Char) :
    (appendToBuffer buf rawData).length ≤ RING_BUFFER_MAX_LINES := by
  rw [appendToBuffer_eq]; exact shiftWhile_length _

theorem foldl_appendToBuffer_length (chunks : List (List Char))
    (buf : List (List Char)) (h : buf.length ≤ RING_BUFFER_MAX_LINES) :
    (chunks.foldl appendToBuffer buf).length ≤ RING_BUFFER_MAX_LINES := by
  induction chunks generalizing buf with
  | nil => simpa using h
  | cons c cs ih => exact ih (appendToBuffer buf c) (appendToBuffer_length buf c)

/-- C1: For every session and every sequence of output chunks appended
via `appendToBuffer`, the session's ring buffer holds at most 200 lines
(the default capacity) at all times, with oldest-line eviction when the
bound is reached: after any number of appends starting from the empty
buffer the length is at most `RING_BUFFER_MAX_LINES = 200`, and each
append produces a suffix of "old buffer plus new lines", so only the
oldest lines are ever evicted. -/
theorem ringBuffer_bounded_with_oldest_eviction (chunks : List (List Char)) :
    (chunks.foldl appendToBuffer []).length ≤ RING_BUFFER_MAX_LINES ∧
    ∀ (buf : List (List Char)) (chunk : List Char),
      (appendToBuffer buf chunk).IsSuffix (buf ++ cleanedLines chunk) := by
  constructor
  · exact foldl_appendToBuffer_length chunks [] (by simp [RING_BUFFER_MAX_LINES])
  · intro buf chunk
    rw [appendToBuffer_eq]
    exact shiftWhile_suffix _

/-- C8: `appendToBuffer` appends exactly the chunk transformed by
stripping ANSI escape sequences, removing carriage returns, splitting
on newline, and discarding lines blank after trimming, preserving the
relative order of retained lines: it always equals the eviction loop
applied to `buf ++ cleanedLines chunk`, and whenever capacity is not
exceeded it equals `buf ++ cleanedLines chunk` itself. -/
theorem appendToBuffer_appends_cleaned_lines (buf : List (List Char))
    (chunk : List Char)
    (h : buf.length + (cleanedLines chunk).length ≤ RING_BUFFER_MAX_LINES) :
    appendToBuffer buf chunk
      = buf ++ (splitOnNl ((stripAnsi chunk).filter (fun c => c ≠ '\r'))).filter
          (fun line => !(jsTrim line).isEmpty) := by
  rw [appendToBuffer_eq]
  exact shiftWhile_eq_of_le _ (by simpa [cleanedLines] using h)

/-- Witness for C8 at a concrete buffer and chunk: a red-coloured `ok`
line, a CRLF, a plain line and a blank line reduce to exactly the two
retained lines appended in order. -/
theorem appendToBuffer_appends_cleaned_lines_witness :
    (["ready".data] : List (List Char)).length
        + (cleanedLines "\x1b[32mok\x1b[0m\r\nhi\n\n".data).length
        ≤ RING_BUFFER_MAX_LINES ∧
    appendToBuffer ["ready".data] "\x1b[32mok\x1b[0m\r\nhi\n\n".data
      = ["ready".data] ++ (splitOnNl ((stripAnsi "\x1b[32mok\x1b[0m\r\nhi\n\n".data).filter
          (fun c => c ≠ '\r'))).filter (fun line => !(jsTrim line).isEmpty) :=
  ⟨by decide, appendToBuffer_appends_cleaned_lines _ _ (by decide)⟩

/-! ## Helper lemmas: the shells map -/

theorem jsMapGet_delete (m : List (String × Nat)) (k : String) :
    jsMapGet (jsMapDelete m k) k = none := by
  unfold jsMapGet jsMapDelete
  rw [Option.map_eq_none', List.find?_eq_none]
  intro p hp
  have := (List.mem_filter.mp hp).2
  simp only [bne_iff_ne, ne_eq] at this
  simp [this]

theorem ptyKill_of_get_none (st : MainState) (id : String) (n : Nat)
    (h : jsMapGet st.shells id = none) : ptyKill st id n = st := by
  unfold ptyKill
  rw [h]

theorem ptyKill_shells_of_get_some (st : MainState) (id : String) (n pid : Nat)
    (h : jsMapGet st.shells id = some pid) :
    (ptyKill st id n).shells = jsMapDelete st.shells id := by
  unfold ptyKill
  rw [h]

/-- C2: killing a session with no live process is a no-op (the shells
map, the PID lock file, the session log and the set of killed pids are
all untouched), and `pty:kill` is idempotent: a second kill of the same
id right after a first one has no further effect. -/
theorem ptyKill_noop_and_idempotent (st : MainState) (id : String) (n1 n2 : Nat) :
    (jsMapGet st.shells id = none → ptyKill st id n1 = st) ∧
    ptyKill (ptyKill st id n1) id n2 = ptyKill st id n1 := by
  constructor
  · exact ptyKill_of_get_none st id n1
  · cases h : jsMapGet st.shells id with
    | none =>
      rw [ptyKill_of_get_none st id n1 h]
      exact ptyKill_of_get_none st id n2 h
    | some pid =>
      apply ptyKill_of_get_none
      rw [ptyKill_shells_of_get_some st id n1 pid h]
      exact jsMapGet_delete st.shells id

/-- Witness for C2: killing a never-spawned session in the initial
state leaves the state exactly as it was. -/
theorem ptyKill_noop_witness :
    jsMapGet initMainState.shells "s1" = none ∧
    ptyKill initMainState "s1" 0 = initMainState :=
  ⟨rfl, (ptyKill_noop_and_idempotent initMainState "s1" 0 0).1 rfl⟩

/-! ## C6: orphan cleanup -/

/-- C6: given a persisted PID lock file all of whose entries reference
dead pids, `cleanupOrphanedProcesses` completes without signalling any
process (each dead-pid probe failure is swallowed by the inner `catch`)
and deletes the lock file; moreover the lock file is deleted whatever
the liveness oracle says. -/
theorem cleanupOrphanedProcesses_all_dead (entries : List PidEntry)
    (alive : Nat → Bool) (h : ∀ e ∈ entries, alive e.pid = false) :
    cleanupOrphanedProcesses (some entries) alive = (none, []) ∧
    ∀ alive2 : Nat → Bool,
      (cleanupOrphanedProcesses (some entries) alive2).1 = none := by
  refine ⟨?_, fun alive2 => rfl⟩
  unfold cleanupOrphanedProcesses
  have : ∀ acc : List (Nat × Sig),
      entries.foldl
        (fun acc e =>
          if alive e.pid then acc ++ [(e.pid, Sig.sigterm), (e.pid, Sig.sigkill)]
          else acc) acc = acc := by
    induction entries with
    | nil => intro acc; rfl
    | cons e es ih =>
      intro acc
      rw [List.foldl_cons, if_neg]
      · exact ih (fun x hx => h x (List.mem_cons_of_mem e hx)) acc
      · simp [h e (List.mem_cons_self e es)]
  simp [this []]

/-- Witness for C6: one stale entry whose pid the liveness oracle
reports dead. -/
theorem cleanupOrphanedProcesses_all_dead_witness :
    (∀ e ∈ [(⟨"s1", 4242, 17⟩ : PidEntry)], (fun _ => false : Nat → Bool) e.pid = false) ∧
    cleanupOrphanedProcesses (some [(⟨"s1", 4242, 17⟩ : PidEntry)]) (fun _ => false)
      = (none, []) :=
  ⟨by simp, (cleanupOrphanedProcesses_all_dead _ _ (by simp)).1⟩

/-! ## C7: spawn failure is surfaced and atomic -/

/-- C7: when the pty spawn call throws, the `pty:spawn` handler returns
`{error: message}` synchronously, no handle is registered in the shells
map for the session id, and the PID lock file is not rewritten (only
the diagnostic session log grows). -/
theorem ptySpawn_failure_atomic (st : MainState) (id msg : String) (now : Nat) :
    (ptySpawn st id (Except.error msg) now).2 = SpawnReply.err msg ∧
    (ptySpawn st id (Except.error msg) now).1.shells = st.shells ∧
    (ptySpawn st id (Except.error msg) now).1.pidsFile = st.pidsFile ∧
    (ptySpawn st id (Except.error msg) now).1.killedPids = st.killedPids := by
  exact ⟨rfl, rfl, rfl, rfl⟩

/-! ## C3: the registry never holds two live handles for one id -/

theorem jsMapSet_keys_nodup (m : List (String × Nat)) (k : String) (v : Nat)
    (h : (m.map Prod.fst).Nodup) : ((jsMapSet m k v).map Prod.fst).Nodup := by
  unfold jsMapSet
  split
  · have : (m.map (fun p => if p.1 == k then (k, v) else p)).map Prod.fst
        = m.map Prod.fst := by
      rw [List.map_map]
      apply List.map_congr_left
      intro p _
      by_cases hpk : (p.1 == k) = true
      · simp only [Function.comp_apply, if_pos hpk]
        exact (eq_of_beq hpk).symm
      · have hne : ¬ p.1 = k := fun he => hpk (by simp [he])
        simp [Function.comp_apply, hne]
    rw [this]
    exact h
  · next hany =>
    rw [List.map_append]
    have hk : k ∉ m.map Prod.fst := by
      intro hmem
      obtain ⟨p, hp, hfst⟩ := List.mem_map.mp hmem
      exact hany (List.any_eq_true.mpr ⟨p, hp, by simp [hfst]⟩)
    simp [List.nodup_append, h, hk]

theorem jsMapDelete_keys_nodup (m : List (String × Nat)) (k : String)
    (h : (m.map Prod.fst).Nodup) : ((jsMapDelete m k).map Prod.fst).Nodup :=
  (((List.filter_sublist m).map Prod.fst).nodup h)

theorem mainStep_keys_nodup (st : MainState) (op : MainOp)
    (h : (st.shells.map Prod.fst).Nodup) :
    ((mainStep st op).shells.map Prod.fst).Nodup := by
  cases op with
  | spawn id r now =>
    cases r with
    | ok pid => exact jsMapSet_keys_nodup st.shells id pid h
    | error msg => exact h
  | kill id now =>
    show ((ptyKill st id now).shells.map Prod.fst).Nodup
    cases hg : jsMapGet st.shells id with
    | none => rw [ptyKill_of_get_none st id now hg]; exact h
    | some pid =>
      rw [ptyKill_shells_of_get_some st id now pid hg]
      exact jsMapDelete_keys_nodup st.shells id h
  | exited id now => exact jsMapDelete_keys_nodup st.shells id h

theorem foldl_mainStep_keys_nodup (ops : List MainOp) (st : MainState)
    (h : (st.shells.map Prod.fst).Nodup) :
    (((ops.foldl mainStep st).shells).map Prod.fst).Nodup := by
  induction ops generalizing st with
  | nil => exact h
  | cons op rest ih => exact ih (mainStep st op) (mainStep_keys_nodup st op h)

theorem find?_map_replace (k : String) (v : Nat) :
    ∀ m : List (String × Nat), m.any (fun p => p.1 == k) = true →
      (m.map (fun p => if p.1 == k then (k, v) else p)).find? (fun p => p.1 == k)
        = some (k, v) := by
  intro m
  induction m with
  | nil => intro h; simp at h
  | cons p rest ih =>
    intro hany
    rw [List.map_cons]
    by_cases hp : (p.1 == k) = true
    · rw [if_pos hp, List.find?_cons_of_pos _ (by simp)]
    · have hp' : (p.1 == k) = false := by simpa using hp
      rw [if_neg hp, List.find?_cons, hp']
      apply ih
      rcases List.any_eq_true.mp hany with ⟨q, hq, hqk⟩
      rcases List.mem_cons.mp hq with rfl | hq2
      · exact absurd hqk hp
      · exact List.any_eq_true.mpr ⟨q, hq2, hqk⟩

theorem jsMapGet_set (m : List (String × Nat)) (k : String) (v : Nat) :
    jsMapGet (jsMapSet m k v) k = some v := by
  unfold jsMapGet jsMapSet
  split
  · next hany =>
    rw [find?_map_replace k v m hany]
    rfl
  · next hany =>
    have hnone : m.find? (fun p => p.1 == k) = none := by
      rw [List.find?_eq_none]
      intro x hx hxk
      exact hany (List.any_eq_true.mpr ⟨x, hx, hxk⟩)
    rw [List.find?_append, hnone, Option.none_or,
        List.find?_cons_of_pos _ (by simp)]
    rfl

/-- C3: for every sequence of spawn / kill / exit events starting from
the empty registry, no session id ever occurs twice among the keys of
the shells map (each key's multiplicity is at most one); moreover a
successful second spawn for an id replaces the registered pid, and a
failed one leaves the registry untouched. -/
theorem shells_registry_unique (ops : List MainOp) (id : String) :
    (((ops.foldl mainStep initMainState).shells).map Prod.fst).count id ≤ 1 ∧
    (∀ (st : MainState) (pid now : Nat),
      jsMapGet ((ptySpawn st id (Except.ok pid) now).1).shells id = some pid) ∧
    (∀ (st : MainState) (msg : String) (now : Nat),
      ((ptySpawn st id (Except.error msg) now).1).shells = st.shells) := by
  refine ⟨?_, ?_, ?_⟩
  · exact List.nodup_iff_count_le_one.mp
      (foldl_mainStep_keys_nodup ops initMainState (by simp [initMainState])) id
  · intro st pid now
    exact jsMapGet_set st.shells id pid
  · intro st msg now
    rfl

/-! ## C4: committed blocks are never empty and at most 50 -/

theorem commitBlocks_good (blocks : List CommandBlock) (cb? : Option CommandBlock)
    (hlen : blocks.length ≤ 50)
    (hmem : ∀ b ∈ blocks, b.command ≠ [] ∨ b.output ≠ []) :
    (commitBlocks blocks cb?).length ≤ 50 ∧
    ∀ b ∈ commitBlocks blocks cb?, b.command ≠ [] ∨ b.output ≠ [] := by
  cases cb? with
  | none => exact ⟨hlen, hmem⟩
  | some cb =>
    simp only [commitBlocks]
    split
    · next hcb =>
      split
      · refine ⟨by simpa using hlen, ?_⟩
        intro b hb
        rcases List.mem_append.mp (List.mem_of_mem_tail hb) with h1 | h2
        · exact hmem b h1
        · rw [List.mem_singleton.mp h2]; exact hcb
      · next hlt =>
        refine ⟨?_, ?_⟩
        · simp only [List.length_append, List.length_singleton] at hlt ⊢; omega
        · intro b hb
          rcases List.mem_append.mp hb with h1 | h2
          · exact hmem b h1
          · rw [List.mem_singleton.mp h2]; exact hcb
    · exact ⟨hlen, hmem⟩

/-- `trackBlocks` either commits the open block or leaves the history
untouched. -/
theorem trackBlocks_blocks_cases (st : BlockState) (data : List Char) (now : Nat) :
    (trackBlocks st data now).blocks = commitBlocks st.blocks st.currentBlock ∨
    (trackBlocks st data now).blocks = st.blocks := by
  simp only [trackBlocks]
  by_cases hc : shellPromptTest
      (jsTrim ((splitOnNl (st.lineBuffer ++ trackClean data)).getLastD [])) = true ∧
      10 < (st.lineBuffer ++ trackClean data).length
  · rw [if_pos hc]
    left
    rfl
  · rw [if_neg hc]
    right
    cases st.currentBlock <;> rfl

theorem trackBlocks_preserves_good (st : BlockState) (data : List Char) (now : Nat)
    (hlen : st.blocks.length ≤ 50)
    (hmem : ∀ b ∈ st.blocks, b.command ≠ [] ∨ b.output ≠ []) :
    (trackBlocks st data now).blocks.length ≤ 50 ∧
    ∀ b ∈ (trackBlocks st data now).blocks, b.command ≠ [] ∨ b.output ≠ [] := by
  rcases trackBlocks_blocks_cases st data now with h | h
  · rw [h]; exact commitBlocks_good st.blocks st.currentBlock hlen hmem
  · rw [h]; exact ⟨hlen, hmem⟩

/-- C4: starting from a fresh terminal instance, after any sequence of
data chunks every block committed to the history is non-empty (its
`command` is a non-empty string or its `output` is non-empty — a fully
empty open block is discarded at the prompt boundary), and the history
never exceeds 50 blocks. -/
theorem trackBlocks_history_nonempty_and_bounded (inputs : List (List Char × Nat)) :
    (inputs.foldl (fun st p => trackBlocks st p.1 p.2) initBlockState).blocks.length ≤ 50 ∧
    ∀ b ∈ (inputs.foldl (fun st p => trackBlocks st p.1 p.2) initBlockState).blocks,
      b.command ≠ [] ∨ b.output ≠ [] := by
  have main : ∀ (l : List (List Char × Nat)) (st : BlockState),
      st.blocks.length ≤ 50 →
      (∀ b ∈ st.blocks, b.command ≠ [] ∨ b.output ≠ []) →
      (l.foldl (fun st p => trackBlocks st p.1 p.2) st).blocks.length ≤ 50 ∧
      ∀ b ∈ (l.foldl (fun st p => trackBlocks st p.1 p.2) st).blocks,
        b.command ≠ [] ∨ b.output ≠ [] := by
    intro l
    induction l with
    | nil => intro st h1 h2; exact ⟨h1, h2⟩
    | cons p rest ih =>
      intro st h1 h2
      have hstep := trackBlocks_preserves_good st p.1 p.2 h1 h2
      exact ih _ hstep.1 hstep.2
  exact main inputs initBlockState (by simp [initBlockState]) (by simp [initBlockState])

/-! ## C5: the red `FAILED` chunk raises both classifier signals -/

/-- C5: on the raw chunk `"\x1b[31mFAILED\x1b[0m\r\n$ "` the stream
classifier reports an error signal (`ANSI_ERROR_RE` matches the raw
chunk), the ANSI-stripped trimmed last line matches the shell-prompt
pattern, the length guard of the boundary passes, and `trackBlocks` on
a fresh line buffer commits the open block and opens a new empty one. -/
theorem classifier_signals_on_red_failed_prompt_chunk :
    ansiErrorTest "\x1b[31mFAILED\x1b[0m\r\n$ ".data = true ∧
    shellPromptTest
      (jsTrim ((splitOnNl (trackClean "\x1b[31mFAILED\x1b[0m\r\n$ ".data)).getLastD [])) = true ∧
    10 < (trackClean "\x1b[31mFAILED\x1b[0m\r\n$ ".data).length ∧
    trackBlocks ⟨[], some ⟨"ls".data, ["src".data], 3, false⟩, []⟩
        "\x1b[31mFAILED\x1b[0m\r\n$ ".data 7
      = ⟨[⟨"ls".data, ["src".data], 3, false⟩], some ⟨[], [], 7, false⟩, []⟩ := by
  exact ⟨by decide, by decide, by decide, by decide⟩

/-! ## C9: activation after removing the active session -/

/-- Counterexample to C9 as stated: removing the single, active session
`"a"` empties the registry but leaves `activeId = some "a"` — the id of
the removed session, not `null`. -/
theorem removeTerminal_last_active_keeps_stale_id :
    (removeTerminal ⟨["a"], some "a"⟩ "a").terminals = [] ∧
    (removeTerminal ⟨["a"], some "a"⟩ "a").activeId = some "a" ∧
    (removeTerminal ⟨["a"], some "a"⟩ "a").activeId ≠ none := by
  exact ⟨by decide, by decide, by decide⟩

/-- C9 amended: when the removed session was active, activation falls
to the first remaining session if any session remains; when none
remains, `removeTerminal` never resets `activeId`, which keeps the
removed session's id. -/
theorem removeTerminal_activation_fallback (st : ManagerState) (id : String)
    (hmem : st.terminals.contains id = true) (hact : st.activeId = some id) :
    ((removeTerminal st id).terminals = [] →
      (removeTerminal st id).activeId = some id) ∧
    (∀ t rest, (removeTerminal st id).terminals = t :: rest →
      (removeTerminal st id).activeId = some t) := by
  have hmem2 : id ∈ st.terminals := by simpa using hmem
  cases hf : st.terminals.filter (fun t => !decide (t = id)) with
  | nil =>
    constructor
    · intro _
      simp [removeTerminal, hmem2, hact, hf]
    · intro t rest hcons
      simp [removeTerminal, hmem2, hact, hf] at hcons
  | cons t0 rest0 =>
    constructor
    · intro hnil
      simp [removeTerminal, hmem2, hact, hf] at hnil
    · intro t rest hcons
      simp [removeTerminal, hmem2, hact, hf] at hcons ⊢
      simp [hcons.1]

/-- Witness for the amended C9: removing active `"a"` out of
`["a", "b"]` re-targets activation to `"b"`. -/
theorem removeTerminal_activation_fallback_witness :
    (["a", "b"] : List String).contains "a" = true ∧
    (removeTerminal ⟨["a", "b"], some "a"⟩ "a").activeId = some "b" :=
  ⟨by decide,
   (removeTerminal_activation_fallback ⟨["a", "b"], some "a"⟩ "a" (by decide) rfl).2
     "b" [] (by decide)⟩

/-! ## C10: natural-language keystroke interception -/

/-- C10: a lone `#` keystroke is never forwarded to the shell and
activates the overlay for that session; while the overlay is active for
a session every `writeToTerminal` for it is dropped; `writeRaw` always
forwards. -/
theorem writeToTerminal_nl_interception (st : NLState) (id : String) :
    (writeToTerminal st id "#".data).2 = [] ∧
    (writeToTerminal st id "#".data).1.nlActiveAgentId = some id ∧
    (∀ data, st.nlActiveAgentId = some id → (writeToTerminal st id data).2 = []) ∧
    (∀ data, (writeRaw st id data).2 = [(id, data)]) := by
  refine ⟨?_, ?_, ?_, fun data => rfl⟩
  · unfold writeToTerminal
    split
    · rfl
    · rw [if_pos rfl]
  · unfold writeToTerminal
    split
    · next h => exact h
    · rw [if_pos rfl]
  · intro data h
    unfold writeToTerminal
    rw [if_pos h]

/-- Witness for C10: with the overlay active for `"a"`, a normal
keystroke sequence for `"a"` is dropped. -/
theorem writeToTerminal_nl_interception_witness :
    (⟨some "a"⟩ : NLState).nlActiveAgentId = some "a" ∧
    (writeToTerminal ⟨some "a"⟩ "a" "ls -la".data).2 = [] :=
  ⟨rfl, (writeToTerminal_nl_interception ⟨some "a"⟩ "a").2.2.1 "ls -la".data rfl⟩

end KaizenTerm
